import Mathlib

/-!
Verification of the path-navigation and mutation engine of `tomledit`
(`src/tomledit/navigate.py`).

The document tree is modelled by `Node`: a Python runtime value that is
either a mutable mapping (`table`, an insertion-ordered association list
modelling `dict` / tomlkit containers), a Python list (`seq`), a string
scalar (`str`), or a non-string non-iterable scalar (`other`, e.g. an
int, float, bool or datetime, carried as an opaque tag).

Value coercion (`make_value`, which calls the external `tomlkit.value`
and falls back to the raw string on `ValueError`) always returns some
value; it is modelled by an arbitrary total function `mk : String → Node`
passed to each mutator.

Python mutates the document in place through the alias returned by
`get_mapping`; ownership of the tree is strictly tree-shaped (each
sub-mapping has a unique position), so the alias denotes exactly the
navigated path.  The model therefore returns, from `get_mapping`, the
post-navigation document together with the focused subtree, and a write
through the alias becomes `updateAt` at the navigated path.
-/

namespace Tomledit

/-- A node of the document tree: the shape of any Python runtime value the
engine can encounter.  `table` keeps insertion order, like a Python dict. -/
inductive Node where
  | table (entries : List (String × Node))
  | seq (elems : List Node)
  | str (s : String)
  | other (tag : String)

/-- First entry of the association list whose key equals `k`
(Python dict lookup `d[k]`; keys are unique in any real dict). -/
def lookupE : List (String × Node) → String → Option Node
  | [], _ => none
  | e :: es, k => if e.1 = k then some e.2 else lookupE es k

/-- Python dict membership `k in d`. -/
def hasKey (es : List (String × Node)) (k : String) : Bool :=
  (lookupE es k).isSome

/-- Python dict assignment `d[k] = v`: replace the value of an existing key
in place (keeping its position), otherwise append the new entry at the end. -/
def setEntry : List (String × Node) → String → Node → List (String × Node)
  | [], k, v => [(k, v)]
  | e :: es, k, v => if e.1 = k then (k, v) :: es else e :: setEntry es k v

/-- Python dict deletion `del d[k]` (the key occurs at most once in a real
dict, so removing the first occurrence is exact). -/
def delEntry : List (String × Node) → String → List (String × Node)
  | [], _ => []
  | e :: es, k => if e.1 = k then es else e :: delEntry es k

/-- `isinstance(x, MutableMapping)`. -/
def Node.isTable : Node → Bool
  | .table _ => true
  | _ => false

/-- `isinstance(x, list)`. -/
def Node.isList : Node → Bool
  | .seq _ => true
  | _ => false

/-- Do the characters `xs` start with the characters `pat`? -/
def charsStartWith : List Char → List Char → Bool
  | _, [] => true
  | [], _ :: _ => false
  | a :: as, b :: bs => a == b && charsStartWith as bs

/-- Do the characters `xs` contain `pat` as a contiguous run? -/
def charsContain : List Char → List Char → Bool
  | [], pat => pat.isEmpty
  | a :: as, pat => charsStartWith (a :: as) pat || charsContain as pat

/-- Python substring test `pat in s` on strings. -/
def strContains (s pat : String) : Bool :=
  charsContain s.data pat.data

/-- Python `k in x` for each runtime shape of `x`.  On a dict it is key
membership; on a list it is element membership (`==` between a string and a
non-string Python value is `False`, so only string elements can match); on a
string it is the substring test; on any other scalar the `in` operator
raises `TypeError` (the value is not iterable), modelled by `.error ()`. -/
def pyContains : Node → String → Except Unit Bool
  | Node.table es, k => Except.ok (hasKey es k)
  | Node.seq xs, k =>
      Except.ok (xs.any fun x => match x with
        | Node.str s => s == k
        | _ => false)
  | Node.str s, k => Except.ok (strContains s k)
  | Node.other _, _ => Except.error ()

/-- Re-raise helper: while unwinding the recursive walk, the consumed-prefix
argument of an `IntermediateNoMappingError` grows by the segment that was
consumed at this level, so the raised error carries `key[:i]` exactly as in
the Python `raise IntermediateNoMappingError(key[:i], table)`. -/
def consErr (k : String) :
    Except (List String × Node) Node → Except (List String × Node) Node
  | Except.ok t => Except.ok t
  | Except.error e => Except.error (k :: e.1, e.2)

/-- `get_mapping(root, key)` from `navigate.py`:

    table = root
    for i, k in enumerate(key):
        if isinstance(table, MutableMapping):
            if k not in table:
                table[k] = {}
            table = table[k]
        else:
            raise IntermediateNoMappingError(key[:i], table)
    return table

The first component is the document after navigation (auto-created tables
included, also when an error is raised); the second is the returned subtree
or the raised error `(consumed prefix, conflicting value)`.  The `getD`
default is never used: after the conditional insertion the key is present. -/
def get_mapping : Node → List String → Node × Except (List String × Node) Node
  | n, [] => (n, Except.ok n)
  | Node.table es, k :: ks =>
      let es1 := if hasKey es k then es else es ++ [(k, Node.table [])]
      let child := (lookupE es1 k).getD (Node.table [])
      let r := get_mapping child ks
      (Node.table (setEntry es1 k r.1), consErr k r.2)
  | n, _ :: _ => (n, Except.error ([], n))

/-- The value reachable from `n` along `p` (pure read, no side effect). -/
def subtreeAt : Node → List String → Option Node
  | n, [] => some n
  | Node.table es, k :: ks =>
      match lookupE es k with
      | some c => subtreeAt c ks
      | none => none
  | _, _ :: _ => none

/-- Replace the subtree of `n` at path `p` by `f` of it.  This is the
functional image of a Python write performed through the alias that
`get_mapping` returned for path `p` (the path exists after navigation). -/
def updateAt : Node → List String → (Node → Node) → Node
  | n, [], f => f n
  | Node.table es, k :: ks, f =>
      match lookupE es k with
      | some c => Node.table (setEntry es k (updateAt c ks f))
      | none => Node.table es
  | n, _ :: _, _ => n

/-- `d[k] = v` on a mapping node (identity on other shapes; never used on
them). -/
def setIn : Node → String → Node → Node
  | Node.table es, k, v => Node.table (setEntry es k v)
  | n, _, _ => n

/-- `del d[k]` on a mapping node (identity on other shapes; never used on
them). -/
def delIn : Node → String → Node
  | Node.table es, k => Node.table (delEntry es k)
  | n, _ => n

/-- The exceptions the engine can raise.  `intermediateNoMapping` and
`noMapping` model the two error classes of `navigate.py` (in Python the
former subclasses the latter, which itself subclasses `TypeError`);
`indexError` models the `IndexError` from `key[-1]` on an empty path;
`typeError` models any other `TypeError` raised by applying `in`, indexing
or item assignment to a non-mapping value. -/
inductive PErr where
  | intermediateNoMapping (key : List String) (value : Node)
  | noMapping (key : List String) (value : Node)
  | indexError
  | typeError

/-- `set_value(root, key, value)`:

    mapping = get_mapping(root, key[:-1])
    if isinstance(mapping, MutableMapping):
        v = make_value(value)
        mapping[key[-1]] = v
    else:
        raise NoMappingError(key[:-1], mapping)

On an empty `key`, `key[-1]` raises `IndexError` after the isinstance
check.  The result is the post-state of the document paired with the raised
error, if any. -/
def set_value (mk : String → Node) (root : Node) (key : List String)
    (value : String) : Node × Option PErr :=
  match get_mapping root key.dropLast with
  | (r1, Except.error e) => (r1, some (PErr.intermediateNoMapping e.1 e.2))
  | (r1, Except.ok (Node.table _)) =>
      match key.getLast? with
      | none => (r1, some PErr.indexError)
      | some last =>
          (updateAt r1 key.dropLast (fun t => setIn t last (mk value)), none)
  | (r1, Except.ok m) => (r1, some (PErr.noMapping key.dropLast m))

/-- `add_value(root, key, value)`:

    mapping = get_mapping(root, key[:-1])
    new_value = make_value(value)
    if key[-1] in mapping:
        current_value = mapping[key[-1]]
        if isinstance(current_value, list):
            current_value.append(new_value)
        else:
            mapping[key[-1]] = [current_value, new_value]
    else:
        mapping[key[-1]] = [new_value]

`key[-1]` is evaluated first (IndexError on an empty path); `in` on a
non-iterable raises `TypeError`; when `mapping` is a list or a string, the
branch taken afterwards raises `TypeError` in every case (string indexing
of a list/str, or item assignment to a list/str with a string index), with
no mutation performed, so those branches produce `typeError`.  The inner
`none` lookup branch is unreachable: membership in a dict implies the
lookup succeeds. -/
def add_value (mk : String → Node) (root : Node) (key : List String)
    (value : String) : Node × Option PErr :=
  match get_mapping root key.dropLast with
  | (r1, Except.error e) => (r1, some (PErr.intermediateNoMapping e.1 e.2))
  | (r1, Except.ok m) =>
      match key.getLast? with
      | none => (r1, some PErr.indexError)
      | some last =>
          match pyContains m last with
          | Except.error _ => (r1, some PErr.typeError)
          | Except.ok true =>
              match m with
              | Node.table es =>
                  match lookupE es last with
                  | some (Node.seq xs) =>
                      (updateAt r1 key.dropLast
                        (fun t => setIn t last (Node.seq (xs ++ [mk value]))),
                       none)
                  | some old =>
                      (updateAt r1 key.dropLast
                        (fun t => setIn t last (Node.seq [old, mk value])),
                       none)
                  | none => (r1, some PErr.typeError)
              | _ => (r1, some PErr.typeError)
          | Except.ok false =>
              match m with
              | Node.table _ =>
                  (updateAt r1 key.dropLast
                    (fun t => setIn t last (Node.seq [mk value])), none)
              | _ => (r1, some PErr.typeError)

/-- `set_or_add(root, key, value)`:

    mapping = get_mapping(root, key[:-1])
    if key[-1] in mapping and isinstance(mapping[key[-1]], list):
        mapping[key[-1]].append(make_value(value))
    else:
        set_value(mapping, [key[-1]], value)

The delegated `set_value(mapping, [key[-1]], value)` resolves
`get_mapping(mapping, [])`, which returns `mapping` itself: on a mapping it
writes `mapping[key[-1]] = make_value(value)`; on a non-mapping it raises
`NoMappingError([], mapping)` (consumed prefix `[key[-1]][:-1] = []`).
When the membership test succeeds on a list or a string, the indexing
`mapping[key[-1]]` in the condition raises `TypeError`. -/
def set_or_add (mk : String → Node) (root : Node) (key : List String)
    (value : String) : Node × Option PErr :=
  match get_mapping root key.dropLast with
  | (r1, Except.error e) => (r1, some (PErr.intermediateNoMapping e.1 e.2))
  | (r1, Except.ok m) =>
      match key.getLast? with
      | none => (r1, some PErr.indexError)
      | some last =>
          match pyContains m last with
          | Except.error _ => (r1, some PErr.typeError)
          | Except.ok true =>
              match m with
              | Node.table es =>
                  match lookupE es last with
                  | some (Node.seq xs) =>
                      (updateAt r1 key.dropLast
                        (fun t => setIn t last (Node.seq (xs ++ [mk value]))),
                       none)
                  | _ =>
                      (updateAt r1 key.dropLast
                        (fun t => setIn t last (mk value)), none)
              | _ => (r1, some PErr.typeError)
          | Except.ok false =>
              match m with
              | Node.table _ =>
                  (updateAt r1 key.dropLast
                    (fun t => setIn t last (mk value)), none)
              | m => (r1, some (PErr.noMapping [] m))

/-- `del_key(root, key)`:

    mapping = get_mapping(root, key[:-1])
    if isinstance(mapping, MutableMapping) and key[-1] in mapping:
        del mapping[key[-1]]
    else:
        raise NoMappingError(key[:-1], mapping)

The isinstance check short-circuits, so on a non-mapping parent the
`key[-1]` of an empty path is never evaluated. -/
def del_key (root : Node) (key : List String) : Node × Option PErr :=
  match get_mapping root key.dropLast with
  | (r1, Except.error e) => (r1, some (PErr.intermediateNoMapping e.1 e.2))
  | (r1, Except.ok (Node.table es)) =>
      match key.getLast? with
      | none => (r1, some PErr.indexError)
      | some last =>
          if hasKey es last then
            (updateAt r1 key.dropLast (fun t => delIn t last), none)
          else (r1, some (PErr.noMapping key.dropLast (Node.table es)))
  | (r1, Except.ok m) => (r1, some (PErr.noMapping key.dropLast m))

/-- The chain of nested singleton tables that navigating a fresh empty
table along `ks` builds: auto-vivification creates one empty table per
segment and then fills it with the next one. -/
def freshChain : List String → Node
  | [] => Node.table []
  | k :: ks => Node.table [(k, freshChain ks)]

/-- The three-cased leaf value the spec prescribes for `add` (§4.3), as a
function of the previous leaf value: absent ↦ singleton list, list ↦
append, anything else ↦ two-element list with the old value first. -/
def add_leaf_spec : Option Node → Node → Node
  | none, v => Node.seq [v]
  | some (Node.seq xs), v => Node.seq (xs ++ [v])
  | some old, v => Node.seq [old, v]

/-- Does this (optional) leaf hold a Python list?  This is the condition
`key[-1] in mapping and isinstance(mapping[key[-1]], list)` of
`set_or_add`, computed on the looked-up leaf of a mapping parent. -/
def leafIsList : Option Node → Bool
  | some (Node.seq _) => true
  | _ => false

/-! ### Association-list lemmas -/

theorem lookupE_setEntry (es : List (String × Node)) (k : String) (v : Node) :
    lookupE (setEntry es k v) k = some v := by
  induction es with
  | nil => simp [setEntry, lookupE]
  | cons e es ih =>
      by_cases h : e.1 = k
      · simp [setEntry, h, lookupE]
      · simp [setEntry, h, lookupE, ih]

theorem setEntry_lookup_self : ∀ {es : List (String × Node)} {k : String} {v : Node},
    lookupE es k = some v → setEntry es k v = es := by
  intro es
  induction es with
  | nil => intro k v h; simp [lookupE] at h
  | cons e es ih =>
      intro k v h
      obtain ⟨k1, v1⟩ := e
      by_cases hk : k1 = k
      · subst hk
        simp [lookupE] at h
        simp [setEntry, ← h]
      · simp only [lookupE, if_neg hk] at h
        simp [setEntry, hk, ih h]

theorem lookupE_append_none {es : List (String × Node)} {k : String}
    (h : lookupE es k = none) (v : Node) :
    lookupE (es ++ [(k, v)]) k = some v := by
  induction es with
  | nil => simp [lookupE]
  | cons e es ih =>
      by_cases hk : e.1 = k
      · simp [lookupE, hk] at h
      · simp [lookupE, hk] at h ⊢
        exact ih h

theorem setEntry_append_none {es : List (String × Node)} {k : String}
    (h : lookupE es k = none) (x y : Node) :
    setEntry (es ++ [(k, x)]) k y = es ++ [(k, y)] := by
  induction es with
  | nil => simp [setEntry]
  | cons e es ih =>
      by_cases hk : e.1 = k
      · simp [lookupE, hk] at h
      · simp [lookupE, hk] at h
        simp [setEntry, hk, ih h]

theorem setEntry_setEntry (es : List (String × Node)) (k : String) (v w : Node) :
    setEntry (setEntry es k v) k w = setEntry es k w := by
  induction es with
  | nil => simp [setEntry]
  | cons e es ih =>
      by_cases hk : e.1 = k
      · simp [setEntry, hk]
      · simp [setEntry, hk, ih]

theorem lookupE_eq_none_of_not_mem : ∀ {es : List (String × Node)} {k : String},
    k ∉ es.map Prod.fst → lookupE es k = none := by
  intro es
  induction es with
  | nil => intro k _; rfl
  | cons e es ih =>
      intro k h
      simp only [List.map_cons, List.mem_cons, not_or] at h
      have h1 : ¬ e.1 = k := fun hh => h.1 hh.symm
      simp [lookupE, h1, ih h.2]

theorem lookupE_delEntry_self : ∀ {es : List (String × Node)},
    (es.map Prod.fst).Nodup → ∀ (k : String), lookupE (delEntry es k) k = none := by
  intro es
  induction es with
  | nil => intro _ k; rfl
  | cons e es ih =>
      intro h k
      simp only [List.map_cons, List.nodup_cons] at h
      by_cases hk : e.1 = k
      · simp only [delEntry, if_pos hk]
        subst hk
        exact lookupE_eq_none_of_not_mem h.1
      · simp [delEntry, hk, lookupE, ih h.2 k]

/-! ### `get_mapping` step lemmas -/

theorem gm_nil (n : Node) : get_mapping n [] = (n, Except.ok n) := by
  cases n <;> rfl

theorem gm_cons_not_table {n : Node} (h : n.isTable = false) (k : String)
    (ks : List String) : get_mapping n (k :: ks) = (n, Except.error ([], n)) := by
  cases n <;> first | rfl | simp [Node.isTable] at h

theorem gm_cons_present {es : List (String × Node)} {k : String} {c : Node}
    (h : lookupE es k = some c) (ks : List String) :
    get_mapping (Node.table es) (k :: ks) =
      (Node.table (setEntry es k (get_mapping c ks).1),
       consErr k (get_mapping c ks).2) := by
  simp [get_mapping, hasKey, h]

theorem gm_cons_absent {es : List (String × Node)} {k : String}
    (h : lookupE es k = none) (ks : List String) :
    get_mapping (Node.table es) (k :: ks) =
      (Node.table (es ++ [(k, (get_mapping (Node.table []) ks).1)]),
       consErr k (get_mapping (Node.table []) ks).2) := by
  simp [get_mapping, hasKey, h, lookupE_append_none h, setEntry_append_none h]

theorem gm_fresh (ks : List String) :
    get_mapping (Node.table []) ks = (freshChain ks, Except.ok (Node.table [])) := by
  induction ks with
  | nil => rfl
  | cons k ks ih =>
      have h0 : lookupE [] k = none := rfl
      rw [gm_cons_absent h0 ks, ih]
      simp [freshChain, consErr]

/-! ### `subtreeAt` and `updateAt` lemmas -/

theorem subtreeAt_nil (n : Node) : subtreeAt n [] = some n := by
  cases n <;> rfl

theorem subtreeAt_cons_not_table {n : Node} (h : n.isTable = false) (k : String)
    (ks : List String) : subtreeAt n (k :: ks) = none := by
  cases n <;> first | rfl | simp [Node.isTable] at h

theorem subtreeAt_cons_some {es : List (String × Node)} {k : String} {c : Node}
    (h : lookupE es k = some c) (ks : List String) :
    subtreeAt (Node.table es) (k :: ks) = subtreeAt c ks := by
  simp [subtreeAt, h]

theorem subtreeAt_cons_none {es : List (String × Node)} {k : String}
    (h : lookupE es k = none) (ks : List String) :
    subtreeAt (Node.table es) (k :: ks) = none := by
  simp [subtreeAt, h]

theorem subtreeAt_append : ∀ (p : List String) (r : Node) (q : List String),
    subtreeAt r (p ++ q) = (subtreeAt r p).bind (fun n => subtreeAt n q) := by
  intro p
  induction p with
  | nil => intro r q; simp [subtreeAt_nil]
  | cons k ks ih =>
      intro r q
      cases r with
      | table es =>
          cases h : lookupE es k with
          | some c => simp [List.cons_append, subtreeAt_cons_some h, ih]
          | none => simp [List.cons_append, subtreeAt_cons_none h]
      | seq xs => simp [List.cons_append, subtreeAt_cons_not_table (n := Node.seq xs) rfl]
      | str s => simp [List.cons_append, subtreeAt_cons_not_table (n := Node.str s) rfl]
      | other t => simp [List.cons_append, subtreeAt_cons_not_table (n := Node.other t) rfl]

theorem updateAt_nil (n : Node) (f : Node → Node) : updateAt n [] f = f n := by
  cases n <;> rfl

theorem updateAt_cons_some {es : List (String × Node)} {k : String} {c : Node}
    (h : lookupE es k = some c) (ks : List String) (f : Node → Node) :
    updateAt (Node.table es) (k :: ks) f =
      Node.table (setEntry es k (updateAt c ks f)) := by
  simp [updateAt, h]

theorem updateAt_subtree : ∀ (p : List String) (r x : Node) (f : Node → Node),
    subtreeAt r p = some x → subtreeAt (updateAt r p f) p = some (f x) := by
  intro p
  induction p with
  | nil =>
      intro r x f h
      rw [subtreeAt_nil] at h
      injection h with h
      subst h
      rw [updateAt_nil, subtreeAt_nil]
  | cons k ks ih =>
      intro r x f h
      cases r with
      | table es =>
          cases hl : lookupE es k with
          | some c =>
              rw [subtreeAt_cons_some hl] at h
              rw [updateAt_cons_some hl,
                subtreeAt_cons_some (lookupE_setEntry es k (updateAt c ks f))]
              exact ih c x f h
          | none =>
              rw [subtreeAt_cons_none hl] at h
              exact Option.noConfusion h
      | seq xs =>
          rw [subtreeAt_cons_not_table (n := Node.seq xs) rfl] at h
          exact Option.noConfusion h
      | str s =>
          rw [subtreeAt_cons_not_table (n := Node.str s) rfl] at h
          exact Option.noConfusion h
      | other t =>
          rw [subtreeAt_cons_not_table (n := Node.other t) rfl] at h
          exact Option.noConfusion h

/-! ### Navigation lemmas -/

/-- Navigating to an already-existing subtree changes nothing and returns
that subtree. -/
theorem subtreeAt_nav : ∀ (p : List String) (r x : Node),
    subtreeAt r p = some x → get_mapping r p = (r, Except.ok x) := by
  intro p
  induction p with
  | nil =>
      intro r x h
      rw [subtreeAt_nil] at h
      injection h with h
      subst h
      exact gm_nil r
  | cons k ks ih =>
      intro r x h
      cases r with
      | table es =>
          cases hl : lookupE es k with
          | some c =>
              rw [subtreeAt_cons_some hl] at h
              rw [gm_cons_present hl ks, ih c x h]
              simp [setEntry_lookup_self hl, consErr]
          | none =>
              rw [subtreeAt_cons_none hl] at h
              exact Option.noConfusion h
      | seq xs =>
          rw [subtreeAt_cons_not_table (n := Node.seq xs) rfl] at h
          exact Option.noConfusion h
      | str s =>
          rw [subtreeAt_cons_not_table (n := Node.str s) rfl] at h
          exact Option.noConfusion h
      | other t =>
          rw [subtreeAt_cons_not_table (n := Node.other t) rfl] at h
          exact Option.noConfusion h

/-- On success, the returned focus is the subtree of the post-navigation
document at the navigated path (in Python it is an alias of exactly that
node). -/
theorem nav_subtreeAt : ∀ (p : List String) (r r1 t : Node),
    get_mapping r p = (r1, Except.ok t) → subtreeAt r1 p = some t := by
  intro p
  induction p with
  | nil =>
      intro r r1 t h
      rw [gm_nil] at h
      injection h with h1 h2
      injection h2 with h2
      subst h1; subst h2
      exact subtreeAt_nil r
  | cons k ks ih =>
      intro r r1 t h
      cases r with
      | table es =>
          cases hl : lookupE es k with
          | some c =>
              rw [gm_cons_present hl ks] at h
              injection h with h1 h2
              cases hres : (get_mapping c ks).2 with
              | ok t' =>
                  rw [hres] at h2
                  simp only [consErr] at h2
                  injection h2 with h2
                  subst h2
                  subst h1
                  rw [subtreeAt_cons_some (lookupE_setEntry es k (get_mapping c ks).1)]
                  exact ih c (get_mapping c ks).1 t' (by rw [← hres])
              | error e =>
                  rw [hres] at h2
                  simp [consErr] at h2
          | none =>
              rw [gm_cons_absent hl ks] at h
              injection h with h1 h2
              cases hres : (get_mapping (Node.table []) ks).2 with
              | ok t' =>
                  rw [hres] at h2
                  simp only [consErr] at h2
                  injection h2 with h2
                  subst h2
                  subst h1
                  rw [subtreeAt_cons_some
                    (lookupE_append_none hl (get_mapping (Node.table []) ks).1)]
                  exact ih (Node.table []) (get_mapping (Node.table []) ks).1 t'
                    (by rw [← hres])
              | error e =>
                  rw [hres] at h2
                  simp [consErr] at h2
      | seq xs =>
          rw [gm_cons_not_table (n := Node.seq xs) rfl] at h
          injection h with h1 h2
          simp at h2
      | str s =>
          rw [gm_cons_not_table (n := Node.str s) rfl] at h
          injection h with h1 h2
          simp at h2
      | other t' =>
          rw [gm_cons_not_table (n := Node.other t') rfl] at h
          injection h with h1 h2
          simp at h2

/-- When navigation raises, the document is unchanged (a conflict can only
arise on a pre-existing value, and once a table has been auto-created every
deeper node is a fresh empty table, so no auto-creation can precede a
conflict), the error carries exactly the consumed prefix together with the
pre-existing non-table value sitting at that prefix, and every shorter
prefix holds a table. -/
theorem nav_error_spec : ∀ (p : List String) (r : Node) (q : List String) (v : Node),
    (get_mapping r p).2 = Except.error (q, v) →
    (get_mapping r p).1 = r ∧ subtreeAt r q = some v ∧ v.isTable = false ∧
      q = p.take q.length ∧ q.length < p.length ∧
      (∀ j, j < q.length → ∃ es, subtreeAt r (p.take j) = some (Node.table es)) := by
  intro p
  induction p with
  | nil =>
      intro r q v h
      rw [gm_nil] at h
      simp at h
  | cons k ks ih =>
      intro r q v h
      cases r with
      | table es =>
          cases hl : lookupE es k with
          | some c =>
              rw [gm_cons_present hl ks] at h
              simp only at h
              cases hres : (get_mapping c ks).2 with
              | ok t' => rw [hres] at h; simp [consErr] at h
              | error e =>
                  obtain ⟨q', v'⟩ := e
                  rw [hres] at h
                  simp only [consErr] at h
                  injection h with h
                  injection h with hq hv
                  subst hq; subst hv
                  obtain ⟨ih1, ih2, ih3, ih4, ih5, ih6⟩ := ih c q' v' hres
                  refine ⟨?_, ?_, ih3, ?_, ?_, ?_⟩
                  · rw [gm_cons_present hl ks]
                    simp only
                    rw [ih1, setEntry_lookup_self hl]
                  · rw [subtreeAt_cons_some hl]
                    exact ih2
                  · simp only [List.length_cons, List.take_succ_cons]
                    rw [← ih4]
                  · simp only [List.length_cons]
                    omega
                  · intro j hj
                    cases j with
                    | zero => exact ⟨es, subtreeAt_nil _⟩
                    | succ j' =>
                        simp only [List.take_succ_cons]
                        rw [subtreeAt_cons_some hl]
                        exact ih6 j' (by simpa using hj)
          | none =>
              rw [gm_cons_absent hl ks, gm_fresh ks] at h
              simp [consErr] at h
      | seq xs =>
          rw [gm_cons_not_table (n := Node.seq xs) rfl] at h
          simp only at h
          injection h with h
          injection h with hq hv
          subst hq; subst hv
          exact ⟨rfl, subtreeAt_nil _, rfl, rfl, by simp, by intro j hj; rw [List.length_nil] at hj; omega⟩
      | str s =>
          rw [gm_cons_not_table (n := Node.str s) rfl] at h
          simp only at h
          injection h with h
          injection h with hq hv
          subst hq; subst hv
          exact ⟨rfl, subtreeAt_nil _, rfl, rfl, by simp, by intro j hj; rw [List.length_nil] at hj; omega⟩
      | other t =>
          rw [gm_cons_not_table (n := Node.other t) rfl] at h
          simp only at h
          injection h with h
          injection h with hq hv
          subst hq; subst hv
          exact ⟨rfl, subtreeAt_nil _, rfl, rfl, by simp, by intro j hj; rw [List.length_nil] at hj; omega⟩

/-- Converse of `nav_error_spec`: a proper prefix holding a non-table value
behind all-table shorter prefixes forces exactly that error. -/
theorem nav_error_of_spec : ∀ (q : List String) (p : List String) (r : Node) (v : Node),
    q.length < p.length → q = p.take q.length →
    subtreeAt r q = some v → v.isTable = false →
    (∀ j, j < q.length → ∃ es, subtreeAt r (p.take j) = some (Node.table es)) →
    (get_mapping r p).2 = Except.error (q, v) := by
  intro q
  induction q with
  | nil =>
      intro p r v hlen _ hsub hnt _
      rw [subtreeAt_nil] at hsub
      injection hsub with hsub
      subst hsub
      cases p with
      | nil => simp at hlen
      | cons k ks =>
          cases r with
          | table es => simp [Node.isTable] at hnt
          | seq xs => rw [gm_cons_not_table (n := Node.seq xs) rfl]
          | str s => rw [gm_cons_not_table (n := Node.str s) rfl]
          | other t => rw [gm_cons_not_table (n := Node.other t) rfl]
  | cons k q' ih =>
      intro p r v hlen hq hsub hnt htab
      cases p with
      | nil => simp at hlen
      | cons k0 ks =>
          simp only [List.length_cons, List.take_succ_cons] at hq
          injection hq with hk hq'
          subst hk
          obtain ⟨es0, hr⟩ := htab 0 (by simp)
          simp only [List.take_zero] at hr
          rw [subtreeAt_nil] at hr
          injection hr with hr
          subst hr
          cases hl : lookupE es0 k with
          | none => rw [subtreeAt_cons_none hl] at hsub; exact Option.noConfusion hsub
          | some c =>
              rw [subtreeAt_cons_some hl] at hsub
              rw [gm_cons_present hl ks]
              simp only
              have hrec := ih ks c v (by simpa using hlen) hq' hsub hnt ?_
              · rw [hrec]
                simp [consErr]
              · intro j hj
                have := htab (j + 1) (by simpa using hj)
                simp only [List.take_succ_cons] at this
                rwa [subtreeAt_cons_some hl] at this

/-- Navigation is idempotent: re-resolving a path just navigated returns the
same focus and leaves the document unchanged. -/
theorem nav_idem : ∀ (p : List String) (r r1 t : Node),
    get_mapping r p = (r1, Except.ok t) → get_mapping r1 p = (r1, Except.ok t) := by
  intro p
  induction p with
  | nil =>
      intro r r1 t h
      rw [gm_nil] at h
      injection h with h1 h2
      injection h2 with h2
      subst h1; subst h2
      exact gm_nil r
  | cons k ks ih =>
      intro r r1 t h
      cases r with
      | table es =>
          cases hl : lookupE es k with
          | some c =>
              rw [gm_cons_present hl ks] at h
              injection h with h1 h2
              cases hres : (get_mapping c ks).2 with
              | error e => rw [hres] at h2; simp [consErr] at h2
              | ok t' =>
                  rw [hres] at h2
                  simp only [consErr] at h2
                  injection h2 with h2
                  subst h2
                  subst h1
                  have hc : get_mapping c ks = ((get_mapping c ks).1, Except.ok t') := by
                    rw [← hres]
                  have hi := ih c (get_mapping c ks).1 t' hc
                  rw [gm_cons_present (lookupE_setEntry es k (get_mapping c ks).1) ks, hi]
                  simp [setEntry_setEntry, consErr]
          | none =>
              rw [gm_cons_absent hl ks, gm_fresh ks] at h
              simp only [consErr] at h
              injection h with h1 h2
              injection h2 with h2
              subst h2
              subst h1
              have hi := ih (Node.table []) (freshChain ks) (Node.table []) (gm_fresh ks)
              rw [gm_cons_present (lookupE_append_none hl (freshChain ks)) ks, hi]
              simp [setEntry_lookup_self (lookupE_append_none hl (freshChain ks)), consErr]
      | seq xs =>
          rw [gm_cons_not_table (n := Node.seq xs) rfl] at h
          simp at h
      | str s =>
          rw [gm_cons_not_table (n := Node.str s) rfl] at h
          simp at h
      | other t' =>
          rw [gm_cons_not_table (n := Node.other t') rfl] at h
          simp at h

/-- After a successful navigation, every proper prefix of the path holds a
table in the resulting document. -/
theorem nav_ok_tables : ∀ (p : List String) (r r1 t : Node),
    get_mapping r p = (r1, Except.ok t) →
    ∀ i, i < p.length → ∃ es, subtreeAt r1 (p.take i) = some (Node.table es) := by
  intro p
  induction p with
  | nil =>
      intro r r1 t _ i hi
      rw [List.length_nil] at hi
      omega
  | cons k ks ih =>
      intro r r1 t h i hi
      cases r with
      | table es =>
          cases hl : lookupE es k with
          | some c =>
              rw [gm_cons_present hl ks] at h
              injection h with h1 h2
              cases hres : (get_mapping c ks).2 with
              | error e => rw [hres] at h2; simp [consErr] at h2
              | ok t' =>
                  rw [hres] at h2
                  simp only [consErr] at h2
                  injection h2 with h2
                  subst h2
                  subst h1
                  cases i with
                  | zero => exact ⟨setEntry es k (get_mapping c ks).1, subtreeAt_nil _⟩
                  | succ i' =>
                      simp only [List.take_succ_cons]
                      rw [subtreeAt_cons_some (lookupE_setEntry es k (get_mapping c ks).1)]
                      exact ih c (get_mapping c ks).1 t' (by rw [← hres]) i'
                        (by simpa using hi)
          | none =>
              rw [gm_cons_absent hl ks, gm_fresh ks] at h
              simp only [consErr] at h
              injection h with h1 h2
              injection h2 with h2
              subst h2
              subst h1
              cases i with
              | zero => exact ⟨es ++ [(k, freshChain ks)], subtreeAt_nil _⟩
              | succ i' =>
                  simp only [List.take_succ_cons]
                  rw [subtreeAt_cons_some (lookupE_append_none hl (freshChain ks))]
                  exact ih (Node.table []) (freshChain ks) (Node.table []) (gm_fresh ks) i'
                    (by simpa using hi)
      | seq xs =>
          rw [gm_cons_not_table (n := Node.seq xs) rfl] at h
          simp at h
      | str s =>
          rw [gm_cons_not_table (n := Node.str s) rfl] at h
          simp at h
      | other t' =>
          rw [gm_cons_not_table (n := Node.other t') rfl] at h
          simp at h

/-- A successful navigation to a path that did not previously exist returns
a freshly created empty table. -/
theorem nav_ok_none_fresh : ∀ (p : List String) (r r1 t : Node),
    get_mapping r p = (r1, Except.ok t) → subtreeAt r p = none → t = Node.table [] := by
  intro p
  induction p with
  | nil =>
      intro r r1 t _ h2
      rw [subtreeAt_nil] at h2
      exact Option.noConfusion h2
  | cons k ks ih =>
      intro r r1 t h h2
      cases r with
      | table es =>
          cases hl : lookupE es k with
          | some c =>
              rw [subtreeAt_cons_some hl] at h2
              rw [gm_cons_present hl ks] at h
              injection h with h1 hr
              cases hres : (get_mapping c ks).2 with
              | error e => rw [hres] at hr; simp [consErr] at hr
              | ok t' =>
                  rw [hres] at hr
                  simp only [consErr] at hr
                  injection hr with hr
                  subst hr
                  exact ih c (get_mapping c ks).1 t' (by rw [← hres]) h2
          | none =>
              rw [gm_cons_absent hl ks, gm_fresh ks] at h
              simp only [consErr] at h
              injection h with h1 hr
              injection hr with hr
              exact hr.symm
      | seq xs =>
          rw [gm_cons_not_table (n := Node.seq xs) rfl] at h
          simp at h
      | str s =>
          rw [gm_cons_not_table (n := Node.str s) rfl] at h
          simp at h
      | other t' =>
          rw [gm_cons_not_table (n := Node.other t') rfl] at h
          simp at h

/-- Navigation succeeds whenever every proper prefix that already exists in
the document holds a table. -/
theorem nav_ok_of_tables (p : List String) (r : Node)
    (H : ∀ i, i < p.length → ∀ n, subtreeAt r (p.take i) = some n → n.isTable = true) :
    ∃ t, (get_mapping r p).2 = Except.ok t := by
  cases hres : (get_mapping r p).2 with
  | ok t => exact ⟨t, rfl⟩
  | error e =>
      obtain ⟨q, v⟩ := e
      obtain ⟨-, h2, h3, h4, h5, -⟩ := nav_error_spec p r q v hres
      have hT := H q.length h5 v (by rw [← h4]; exact h2)
      rw [hT] at h3
      exact Bool.noConfusion h3

/-! ### Mutator computation lemmas -/

/-- Writing the leaf under a table parent: the written value is then the
subtree at the full path. -/
theorem subtree_after_write (root1 : Node) (p : List String) (last : String)
    (es : List (String × Node)) (v : Node)
    (hsub : subtreeAt root1 p = some (Node.table es)) :
    subtreeAt (updateAt root1 p (fun t => setIn t last v)) (p ++ [last]) = some v := by
  rw [subtreeAt_append, updateAt_subtree p root1 (Node.table es) _ hsub]
  simp only [Option.some_bind, setIn]
  rw [subtreeAt_cons_some (lookupE_setEntry es last v), subtreeAt_nil]

theorem set_value_table (mk : String → Node) (root : Node) (key : List String)
    (value : String) (last : String) (root1 : Node) (es : List (String × Node))
    (hl : key.getLast? = some last)
    (hnav : get_mapping root key.dropLast = (root1, Except.ok (Node.table es))) :
    set_value mk root key value =
      (updateAt root1 key.dropLast (fun t => setIn t last (mk value)), none) := by
  unfold set_value
  rw [hnav, hl]

theorem set_value_not_table (mk : String → Node) (root : Node) (key : List String)
    (value : String) (root1 m : Node)
    (hnav : get_mapping root key.dropLast = (root1, Except.ok m))
    (hm : m.isTable = false) :
    set_value mk root key value = (root1, some (PErr.noMapping key.dropLast m)) := by
  unfold set_value
  rw [hnav]
  cases m with
  | table es => simp [Node.isTable] at hm
  | seq xs => rfl
  | str s => rfl
  | other t => rfl

theorem add_value_table (mk : String → Node) (root : Node) (key : List String)
    (value : String) (last : String) (root1 : Node) (es : List (String × Node))
    (hl : key.getLast? = some last)
    (hnav : get_mapping root key.dropLast = (root1, Except.ok (Node.table es))) :
    add_value mk root key value =
      (updateAt root1 key.dropLast
        (fun t => setIn t last (add_leaf_spec (lookupE es last) (mk value))), none) := by
  unfold add_value
  rw [hnav, hl]
  cases hlk : lookupE es last with
  | none =>
      have hhk : hasKey es last = false := by simp [hasKey, hlk]
      simp [pyContains, hhk, add_leaf_spec]
  | some c =>
      have hhk : hasKey es last = true := by simp [hasKey, hlk]
      cases c with
      | table fs => simp [pyContains, hhk, hlk, add_leaf_spec]
      | seq xs => simp [pyContains, hhk, hlk, add_leaf_spec]
      | str s => simp [pyContains, hhk, hlk, add_leaf_spec]
      | other t => simp [pyContains, hhk, hlk, add_leaf_spec]

theorem set_or_add_table_list (mk : String → Node) (root : Node) (key : List String)
    (value : String) (last : String) (root1 : Node) (es : List (String × Node))
    (xs : List Node) (hl : key.getLast? = some last)
    (hnav : get_mapping root key.dropLast = (root1, Except.ok (Node.table es)))
    (hlk : lookupE es last = some (Node.seq xs)) :
    set_or_add mk root key value =
      (updateAt root1 key.dropLast
        (fun t => setIn t last (Node.seq (xs ++ [mk value]))), none) := by
  unfold set_or_add
  rw [hnav, hl]
  have hhk : hasKey es last = true := by simp [hasKey, hlk]
  simp [pyContains, hhk, hlk]

theorem set_or_add_table_other (mk : String → Node) (root : Node) (key : List String)
    (value : String) (last : String) (root1 : Node) (es : List (String × Node))
    (hl : key.getLast? = some last)
    (hnav : get_mapping root key.dropLast = (root1, Except.ok (Node.table es)))
    (hlk : leafIsList (lookupE es last) = false) :
    set_or_add mk root key value =
      (updateAt root1 key.dropLast (fun t => setIn t last (mk value)), none) := by
  unfold set_or_add
  rw [hnav, hl]
  cases hlo : lookupE es last with
  | none =>
      have hhk : hasKey es last = false := by simp [hasKey, hlo]
      simp [pyContains, hhk]
  | some c =>
      have hhk : hasKey es last = true := by simp [hasKey, hlo]
      cases c with
      | table fs => simp [pyContains, hhk, hlo]
      | seq xs => rw [hlo] at hlk; simp [leafIsList] at hlk
      | str s => simp [pyContains, hhk, hlo]
      | other t => simp [pyContains, hhk, hlo]

theorem del_key_table_present (root : Node) (key : List String) (last : String)
    (root1 : Node) (es : List (String × Node))
    (hl : key.getLast? = some last)
    (hnav : get_mapping root key.dropLast = (root1, Except.ok (Node.table es)))
    (hhk : hasKey es last = true) :
    del_key root key = (updateAt root1 key.dropLast (fun t => delIn t last), none) := by
  unfold del_key
  rw [hnav, hl]
  simp [hhk]

theorem del_key_table_absent (root : Node) (key : List String) (last : String)
    (root1 : Node) (es : List (String × Node))
    (hl : key.getLast? = some last)
    (hnav : get_mapping root key.dropLast = (root1, Except.ok (Node.table es)))
    (hhk : hasKey es last = false) :
    del_key root key = (root1, some (PErr.noMapping key.dropLast (Node.table es))) := by
  unfold del_key
  rw [hnav, hl]
  simp [hhk]

/-! ### Claims -/

/-- C1: `get_mapping` walks the key path segment by segment.  First
conjunct: when the current node is a table and the current segment is
absent from it, a fresh empty table is inserted under that segment (at the
end, preserving insertion order) and navigation descends into the value now
present.  Second conjunct: it raises `IntermediateNoMappingError (p, v)` —
carrying exactly the consumed prefix `p` of the path and the conflicting
non-table value `v`, consuming no further segment — precisely when `p` is a
proper prefix of the key all of whose strictly shorter prefixes hold
tables, while `p` itself holds the non-table value `v`. -/
theorem c1_navigation_walk :
    (∀ (es : List (String × Node)) (k : String) (ks : List String),
       lookupE es k = none →
       get_mapping (Node.table es) (k :: ks) =
         (Node.table (es ++ [(k, (get_mapping (Node.table []) ks).1)]),
          consErr k (get_mapping (Node.table []) ks).2)) ∧
    (∀ (root : Node) (key p : List String) (v : Node),
       (get_mapping root key).2 = Except.error (p, v) ↔
         (p.length < key.length ∧ p = key.take p.length ∧
          subtreeAt root p = some v ∧ v.isTable = false ∧
          ∀ j, j < p.length → ∃ es, subtreeAt root (key.take j) = some (Node.table es))) := by
  constructor
  · intro es k ks h
    exact gm_cons_absent h ks
  · intro root key p v
    constructor
    · intro h
      obtain ⟨-, h2, h3, h4, h5, h6⟩ := nav_error_spec key root p v h
      exact ⟨h5, h4, h2, h3, h6⟩
    · rintro ⟨h5, h4, h2, h3, h6⟩
      exact nav_error_of_spec p key root v h5 h4 h2 h3 h6

/-- Witness for C1: on `{a: "x"}` and path `a.b`, navigation raises with
consumed prefix `["a"]` and conflicting value `"x"`. -/
theorem c1_navigation_walk_witness :
    (get_mapping (Node.table [("a", Node.str "x")]) ["a", "b"]).2 =
      Except.error (["a"], Node.str "x") :=
  (c1_navigation_walk.2 (Node.table [("a", Node.str "x")]) ["a", "b"] ["a"]
      (Node.str "x")).mpr
    ⟨by decide, rfl, rfl, rfl, fun j hj => by
      have hj1 : j < 1 := by simpa using hj
      have hj0 : j = 0 := by omega
      subst hj0
      exact ⟨[("a", Node.str "x")], rfl⟩⟩

/-- C2 counterexample: `get_mapping` can return, without raising, a value
that is not a table — the final segment's pre-existing value is returned
unchecked: on `{a: "v"}` and path `["a"]` it returns the string scalar. -/
theorem c2_counterexample :
    (get_mapping (Node.table [("a", Node.str "v")]) ["a"]).2 =
      Except.ok (Node.str "v") ∧
    Node.isTable (Node.str "v") = false :=
  ⟨rfl, rfl⟩

/-- C2 (amended): whenever `get_mapping` returns without raising, the value
it returns is the node now present at the full path; for the empty path it
is the root itself with the document unchanged; it is a fresh empty table
whenever the full path was not previously present, and it is the previous
node (document unchanged) whenever the full path already existed — so it is
a table in all cases except when the final segment already held a non-table
value. -/
theorem c2_returns_node_at_path (root : Node) (key : List String) (f : Node)
    (h : (get_mapping root key).2 = Except.ok f) :
    subtreeAt (get_mapping root key).1 key = some f ∧
    (key = [] → (get_mapping root key).1 = root ∧ f = root) ∧
    (subtreeAt root key = none → f = Node.table []) ∧
    (∀ n, subtreeAt root key = some n → f = n ∧ (get_mapping root key).1 = root) := by
  have hpair : get_mapping root key = ((get_mapping root key).1, Except.ok f) := by
    rw [← h]
  refine ⟨nav_subtreeAt key root _ f hpair, ?_, ?_, ?_⟩
  · intro hk
    subst hk
    constructor
    · rw [gm_nil]
    · rw [gm_nil] at h
      simp only at h
      injection h with h
      exact h.symm
  · intro hnone
    exact nav_ok_none_fresh key root _ f hpair hnone
  · intro n hsome
    have hnav := subtreeAt_nav key root n hsome
    rw [hnav] at h
    simp only at h
    injection h with h
    exact ⟨h.symm, by rw [hnav]⟩

/-- Witness for C2's amended theorem: on `{a: {x: "1"}}` and path `["a"]`
the returned focus is the inner table, found at the path afterwards. -/
theorem c2_returns_node_at_path_witness :
    (get_mapping (Node.table [("a", Node.table [("x", Node.str "1")])]) ["a"]).2 =
      Except.ok (Node.table [("x", Node.str "1")]) ∧
    subtreeAt
      (get_mapping (Node.table [("a", Node.table [("x", Node.str "1")])]) ["a"]).1
      ["a"] = some (Node.table [("x", Node.str "1")]) :=
  ⟨rfl,
   (c2_returns_node_at_path (Node.table [("a", Node.table [("x", Node.str "1")])])
      ["a"] (Node.table [("x", Node.str "1")]) rfl).1⟩

/-- C8: when navigation fails with IntermediateNoMappingError, the document
is left exactly unchanged — in particular every table auto-created on the
walked prefix remains (in fact a conflict can only hit a pre-existing
value, so none was created), the conflicting non-table value still sits
untouched at the consumed prefix, and no entry anywhere else changes. -/
theorem c8_error_frame (root : Node) (key p : List String) (v : Node)
    (h : (get_mapping root key).2 = Except.error (p, v)) :
    (get_mapping root key).1 = root ∧ subtreeAt root p = some v ∧
      v.isTable = false ∧ p = key.take p.length ∧ p.length < key.length := by
  obtain ⟨h1, h2, h3, h4, h5, -⟩ := nav_error_spec key root p v h
  exact ⟨h1, h2, h3, h4, h5⟩

/-- Witness for C8: on `{a: {b: []}}` and path `a.b.c` navigation fails at
prefix `a.b` and the document is unchanged. -/
theorem c8_error_frame_witness :
    (get_mapping (Node.table [("a", Node.table [("b", Node.seq [])])])
        ["a", "b", "c"]).2 = Except.error (["a", "b"], Node.seq []) ∧
    (get_mapping (Node.table [("a", Node.table [("b", Node.seq [])])])
        ["a", "b", "c"]).1 = Node.table [("a", Node.table [("b", Node.seq [])])] :=
  ⟨rfl,
   (c8_error_frame (Node.table [("a", Node.table [("b", Node.seq [])])])
      ["a", "b", "c"] ["a", "b"] (Node.seq []) rfl).1⟩

/-- C9: if the document holds no non-table value at any proper prefix of
`p`, navigation succeeds; the returned focus is a freshly created empty
table whenever the full path was not previously present; every prefix not
previously present holds a table afterwards; and re-navigating the same
path on the resulting document returns the same table and leaves the
document unchanged (navigation is idempotent). -/
theorem c9_idempotent_navigation (d : Node) (p : List String)
    (H : ∀ i, i < p.length → ∀ n, subtreeAt d (p.take i) = some n → n.isTable = true) :
    ∃ t, (get_mapping d p).2 = Except.ok t ∧
      (subtreeAt d p = none → t = Node.table []) ∧
      (∀ i, i ≤ p.length → subtreeAt d (p.take i) = none →
        ∃ es, subtreeAt (get_mapping d p).1 (p.take i) = some (Node.table es)) ∧
      get_mapping (get_mapping d p).1 p = ((get_mapping d p).1, Except.ok t) := by
  obtain ⟨t, ht⟩ := nav_ok_of_tables p d H
  have hpair : get_mapping d p = ((get_mapping d p).1, Except.ok t) := by rw [← ht]
  refine ⟨t, ht, nav_ok_none_fresh p d _ t hpair, ?_, nav_idem p d _ t hpair⟩
  intro i hi hnone
  rcases Nat.lt_or_ge i p.length with hlt | hge
  · exact nav_ok_tables p d _ t hpair i hlt
  · have hieq : i = p.length := by omega
    subst hieq
    rw [List.take_length] at hnone ⊢
    have hfresh := nav_ok_none_fresh p d _ t hpair hnone
    have hsub := nav_subtreeAt p d _ t hpair
    rw [hfresh] at hsub
    exact ⟨[], hsub⟩

/-- Witness for C9: on `{a: {}}` and path `a.b`, both navigations return
the same fresh empty table and the second changes nothing. -/
theorem c9_idempotent_navigation_witness :
    ∃ t,
      (get_mapping (Node.table [("a", Node.table [])]) ["a", "b"]).2 =
        Except.ok t ∧
      (subtreeAt (Node.table [("a", Node.table [])]) ["a", "b"] = none →
        t = Node.table []) ∧
      (∀ i, i ≤ (["a", "b"] : List String).length →
        subtreeAt (Node.table [("a", Node.table [])])
          ((["a", "b"] : List String).take i) = none →
        ∃ es, subtreeAt
          (get_mapping (Node.table [("a", Node.table [])]) ["a", "b"]).1
          ((["a", "b"] : List String).take i) = some (Node.table es)) ∧
      get_mapping (get_mapping (Node.table [("a", Node.table [])]) ["a", "b"]).1
          ["a", "b"] =
        ((get_mapping (Node.table [("a", Node.table [])]) ["a", "b"]).1,
         Except.ok t) :=
  c9_idempotent_navigation (Node.table [("a", Node.table [])]) ["a", "b"]
    (by
      intro i hi n hn
      have hi2 : i < 2 := by simpa using hi
      interval_cases i
      · rw [List.take_zero, subtreeAt_nil] at hn
        injection hn with hn
        rw [← hn]
        rfl
      · have h1 : subtreeAt (Node.table [("a", Node.table [])])
            ((["a", "b"] : List String).take 1) = some (Node.table []) := rfl
        rw [h1] at hn
        injection hn with hn
        rw [← hn]
        rfl)

/-- C10: on a mapping root and a zero-length key path, each of the four
mutators evaluates `key[-1]` on the empty path and raises `IndexError`
(not `NoMappingError`), leaving the document unchanged. -/
theorem c10_empty_path_index_error (mk : String → Node)
    (es : List (String × Node)) (v : String) :
    set_value mk (Node.table es) [] v = (Node.table es, some PErr.indexError) ∧
    add_value mk (Node.table es) [] v = (Node.table es, some PErr.indexError) ∧
    set_or_add mk (Node.table es) [] v = (Node.table es, some PErr.indexError) ∧
    del_key (Node.table es) [] = (Node.table es, some PErr.indexError) :=
  ⟨rfl, rfl, rfl, rfl⟩

/-- C3: with the parent path resolved (to a table, so that leaf presence
and the leaf's current value are well defined), `set_or_add` appends the
coerced value exactly when the final key is present and currently holds a
list — with effect identical to `add_value` on the same arguments — and in
every other case (leaf absent, scalar, or table) its effect equals
`set_value`, i.e. the leaf is unconditionally overwritten with the coerced
value and a scalar leaf is never promoted to a list. -/
theorem c3_set_or_add_cases (mk : String → Node) (root : Node) (key : List String)
    (value : String) (last : String) (root1 : Node) (es : List (String × Node))
    (hl : key.getLast? = some last)
    (hnav : get_mapping root key.dropLast = (root1, Except.ok (Node.table es))) :
    (leafIsList (lookupE es last) = true →
       set_or_add mk root key value = add_value mk root key value) ∧
    (leafIsList (lookupE es last) = false →
       set_or_add mk root key value = set_value mk root key value) := by
  constructor
  · intro hlist
    cases hlk : lookupE es last with
    | none => rw [hlk] at hlist; simp [leafIsList] at hlist
    | some c =>
        cases c with
        | seq xs =>
            rw [set_or_add_table_list mk root key value last root1 es xs hl hnav hlk,
              add_value_table mk root key value last root1 es hl hnav, hlk]
            rfl
        | table fs => rw [hlk] at hlist; simp [leafIsList] at hlist
        | str s => rw [hlk] at hlist; simp [leafIsList] at hlist
        | other t => rw [hlk] at hlist; simp [leafIsList] at hlist
  · intro hlist
    rw [set_or_add_table_other mk root key value last root1 es hl hnav hlist,
      set_value_table mk root key value last root1 es hl hnav]

/-- Witness for C3, both cases: on `{a: ["0"], b: "s"}`, `set_or_add` at
`["a"]` equals `add_value` (list leaf) and at `["b"]` equals `set_value`
(scalar leaf). -/
theorem c3_set_or_add_cases_witness :
    (["a"] : List String).getLast? = some "a" ∧
    get_mapping (Node.table [("a", Node.seq [Node.str "0"]), ("b", Node.str "s")])
        (["a"] : List String).dropLast =
      (Node.table [("a", Node.seq [Node.str "0"]), ("b", Node.str "s")],
       Except.ok (Node.table [("a", Node.seq [Node.str "0"]), ("b", Node.str "s")])) ∧
    set_or_add Node.str
        (Node.table [("a", Node.seq [Node.str "0"]), ("b", Node.str "s")]) ["a"] "v" =
      add_value Node.str
        (Node.table [("a", Node.seq [Node.str "0"]), ("b", Node.str "s")]) ["a"] "v" ∧
    set_or_add Node.str
        (Node.table [("a", Node.seq [Node.str "0"]), ("b", Node.str "s")]) ["b"] "v" =
      set_value Node.str
        (Node.table [("a", Node.seq [Node.str "0"]), ("b", Node.str "s")]) ["b"] "v" :=
  ⟨rfl, rfl,
   (c3_set_or_add_cases Node.str
      (Node.table [("a", Node.seq [Node.str "0"]), ("b", Node.str "s")]) ["a"] "v" "a"
      (Node.table [("a", Node.seq [Node.str "0"]), ("b", Node.str "s")])
      [("a", Node.seq [Node.str "0"]), ("b", Node.str "s")] rfl rfl).1 rfl,
   (c3_set_or_add_cases Node.str
      (Node.table [("a", Node.seq [Node.str "0"]), ("b", Node.str "s")]) ["b"] "v" "b"
      (Node.table [("a", Node.seq [Node.str "0"]), ("b", Node.str "s")])
      [("a", Node.seq [Node.str "0"]), ("b", Node.str "s")] rfl rfl).2 rfl⟩

/-- C4: with the parent path resolved to a table, `add_value`'s effect on
the leaf is exactly `add_leaf_spec` of the previous leaf value: absent ↦
new one-element list with the coerced value; a list ↦ the coerced value
appended after the existing elements in their order; any non-list value ↦ a
two-element list of the old value then the coerced value.  The full path
then holds exactly that leaf. -/
theorem c4_add_value_cases (mk : String → Node) (root : Node) (key : List String)
    (value : String) (last : String) (root1 : Node) (es : List (String × Node))
    (hl : key.getLast? = some last)
    (hnav : get_mapping root key.dropLast = (root1, Except.ok (Node.table es))) :
    add_value mk root key value =
      (updateAt root1 key.dropLast
        (fun t => setIn t last (add_leaf_spec (lookupE es last) (mk value))), none) ∧
    subtreeAt (add_value mk root key value).1 key =
      some (add_leaf_spec (lookupE es last) (mk value)) := by
  have hadd := add_value_table mk root key value last root1 es hl hnav
  refine ⟨hadd, ?_⟩
  have hsub := nav_subtreeAt key.dropLast root root1 (Node.table es) hnav
  have hwrite := subtree_after_write root1 key.dropLast last es
    (add_leaf_spec (lookupE es last) (mk value)) hsub
  have hkey : key.dropLast ++ [last] = key :=
    List.dropLast_append_getLast? last (Option.mem_def.mpr hl)
  rw [hkey] at hwrite
  rw [hadd]
  exact hwrite

/-- Witness for C4 (the spec's scalar-promotion example): adding `"new"`
at `a.b.c` over `{a:{b:{c:"existing"}}}` leaves the two-element list
`["existing", "new"]` there. -/
theorem c4_add_value_cases_witness :
    add_leaf_spec (lookupE [("c", Node.str "existing")] "c") (Node.str "new") =
      Node.seq [Node.str "existing", Node.str "new"] ∧
    subtreeAt (add_value Node.str
        (Node.table [("a", Node.table [("b", Node.table [("c", Node.str "existing")])])])
        ["a", "b", "c"] "new").1 ["a", "b", "c"] =
      some (add_leaf_spec (lookupE [("c", Node.str "existing")] "c") (Node.str "new")) :=
  ⟨rfl,
   (c4_add_value_cases Node.str
      (Node.table [("a", Node.table [("b", Node.table [("c", Node.str "existing")])])])
      ["a", "b", "c"] "new" "c"
      (Node.table [("a", Node.table [("b", Node.table [("c", Node.str "existing")])])])
      [("c", Node.str "existing")] rfl rfl).2⟩

/-- C5 counterexample: the claim quantifies over every parent resolution
that returns without raising, but `get_mapping` can return a non-table
(here the string scalar at `a` of `{a: "x"}`), and `add_value` then raises
a `TypeError` (item assignment on a string) instead of succeeding. -/
theorem c5_counterexample :
    (get_mapping (Node.table [("a", Node.str "x")])
        (["a", "b"] : List String).dropLast).2 = Except.ok (Node.str "x") ∧
    add_value Node.str (Node.table [("a", Node.str "x")]) ["a", "b"] "v" =
      (Node.table [("a", Node.str "x")], some PErr.typeError) :=
  ⟨rfl, rfl⟩

/-- C5 (amended): whenever the parent path resolves to a table, `add_value`
raises no error at all — it never fails structurally once the parent table
is resolved, and coercion (modelled by the total `mk`) always succeeds. -/
theorem c5_add_value_no_error (mk : String → Node) (root : Node) (key : List String)
    (value : String) (last : String) (root1 : Node) (es : List (String × Node))
    (hl : key.getLast? = some last)
    (hnav : get_mapping root key.dropLast = (root1, Except.ok (Node.table es))) :
    (add_value mk root key value).2 = none := by
  rw [add_value_table mk root key value last root1 es hl hnav]

/-- Witness for C5's amended theorem: adding at `a.b` over `{}` raises
nothing. -/
theorem c5_add_value_no_error_witness :
    (add_value Node.str (Node.table []) ["a", "b"] "v").2 = none :=
  c5_add_value_no_error Node.str (Node.table []) ["a", "b"] "v" "b"
    (Node.table [("a", Node.table [])]) [] rfl rfl

/-- C7: with the parent path resolved to a table, `del_key` removes the
final key exactly when it is present — whatever kind of value it holds —
and raises `NoMappingError(key[:-1], parent)` exactly when it is absent;
consequently (for a real dict parent, whose keys are distinct) deleting an
existing key and then repeating the identical delete leaves the parent
without the key and raises `NoMappingError` on the second call. -/
theorem c7_del_key_cases (root : Node) (key : List String) (last : String)
    (root1 : Node) (es : List (String × Node))
    (hl : key.getLast? = some last)
    (hnav : get_mapping root key.dropLast = (root1, Except.ok (Node.table es))) :
    (hasKey es last = true →
       del_key root key = (updateAt root1 key.dropLast (fun t => delIn t last), none)) ∧
    (hasKey es last = false →
       del_key root key = (root1, some (PErr.noMapping key.dropLast (Node.table es)))) ∧
    ((es.map Prod.fst).Nodup → hasKey es last = true →
       del_key (updateAt root1 key.dropLast (fun t => delIn t last)) key =
         (updateAt root1 key.dropLast (fun t => delIn t last),
          some (PErr.noMapping key.dropLast (Node.table (delEntry es last))))) := by
  refine ⟨fun hhk => del_key_table_present root key last root1 es hl hnav hhk,
          fun hhk => del_key_table_absent root key last root1 es hl hnav hhk, ?_⟩
  intro hnodup hhk
  have hsub := nav_subtreeAt key.dropLast root root1 (Node.table es) hnav
  have hsub2 : subtreeAt (updateAt root1 key.dropLast (fun t => delIn t last))
      key.dropLast = some (Node.table (delEntry es last)) := by
    have hu := updateAt_subtree key.dropLast root1 (Node.table es)
      (fun t => delIn t last) hsub
    simpa [delIn] using hu
  have hnav2 := subtreeAt_nav key.dropLast
    (updateAt root1 key.dropLast (fun t => delIn t last))
    (Node.table (delEntry es last)) hsub2
  have hdel : lookupE (delEntry es last) last = none := lookupE_delEntry_self hnodup last
  have hhk2 : hasKey (delEntry es last) last = false := by simp [hasKey, hdel]
  exact del_key_table_absent _ key last _ (delEntry es last) hl hnav2 hhk2

/-- Witness for C7 (the spec's example): deleting `a.b` on `{a:{b:1}}`
leaves `{a:{}}`; repeating the identical delete raises `NoMappingError`. -/
theorem c7_del_key_cases_witness :
    del_key (Node.table [("a", Node.table [("b", Node.str "1")])]) ["a", "b"] =
      (updateAt (Node.table [("a", Node.table [("b", Node.str "1")])])
        (["a", "b"] : List String).dropLast (fun t => delIn t "b"), none) ∧
    updateAt (Node.table [("a", Node.table [("b", Node.str "1")])])
        (["a", "b"] : List String).dropLast (fun t => delIn t "b") =
      Node.table [("a", Node.table [])] ∧
    del_key (updateAt (Node.table [("a", Node.table [("b", Node.str "1")])])
        (["a", "b"] : List String).dropLast (fun t => delIn t "b")) ["a", "b"] =
      (updateAt (Node.table [("a", Node.table [("b", Node.str "1")])])
        (["a", "b"] : List String).dropLast (fun t => delIn t "b"),
       some (PErr.noMapping ["a"]
         (Node.table (delEntry [("b", Node.str "1")] "b")))) :=
  ⟨(c7_del_key_cases (Node.table [("a", Node.table [("b", Node.str "1")])])
      ["a", "b"] "b" (Node.table [("a", Node.table [("b", Node.str "1")])])
      [("b", Node.str "1")] rfl rfl).1 rfl,
   rfl,
   (c7_del_key_cases (Node.table [("a", Node.table [("b", Node.str "1")])])
      ["a", "b"] "b" (Node.table [("a", Node.table [("b", Node.str "1")])])
      [("b", Node.str "1")] rfl rfl).2.2 (by decide) rfl⟩

/-- C6: with the parent path resolved to a table, `set_value` writes the
coerced value under the final segment of the resolved parent, overwriting
unconditionally whatever was stored there, and the full path then holds
exactly the coerced value (so `set` on `{}` at `a.b.c` leaves
`root.a.b.c = coerce v`); if the parent path resolved to a non-table value,
`set_value` fails with `NoMappingError(key[:-1], mapping)`. -/
theorem c6_set_value_overwrites :
    (∀ (mk : String → Node) (root : Node) (key : List String) (value : String)
       (last : String) (root1 : Node) (es : List (String × Node)),
       key.getLast? = some last →
       get_mapping root key.dropLast = (root1, Except.ok (Node.table es)) →
       set_value mk root key value =
         (updateAt root1 key.dropLast (fun t => setIn t last (mk value)), none) ∧
       subtreeAt (set_value mk root key value).1 key = some (mk value)) ∧
    (∀ (mk : String → Node) (root : Node) (key : List String) (value : String)
       (root1 m : Node),
       get_mapping root key.dropLast = (root1, Except.ok m) → m.isTable = false →
       set_value mk root key value = (root1, some (PErr.noMapping key.dropLast m))) := by
  constructor
  · intro mk root key value last root1 es hl hnav
    have hset := set_value_table mk root key value last root1 es hl hnav
    refine ⟨hset, ?_⟩
    have hsub := nav_subtreeAt key.dropLast root root1 (Node.table es) hnav
    have hwrite := subtree_after_write root1 key.dropLast last es (mk value) hsub
    have hkey : key.dropLast ++ [last] = key :=
      List.dropLast_append_getLast? last (Option.mem_def.mpr hl)
    rw [hkey] at hwrite
    rw [hset]
    exact hwrite
  · intro mk root key value root1 m hnav hm
    exact set_value_not_table mk root key value root1 m hnav hm

/-- Witness for C6 (the spec's example): `set` at `a.b.c` over `{}` leaves
`coerce "v"` at `a.b.c`. -/
theorem c6_set_value_overwrites_witness :
    (["a", "b", "c"] : List String).getLast? = some "c" ∧
    get_mapping (Node.table []) (["a", "b", "c"] : List String).dropLast =
      (Node.table [("a", Node.table [("b", Node.table [])])],
       Except.ok (Node.table [])) ∧
    subtreeAt (set_value Node.str (Node.table []) ["a", "b", "c"] "v").1
      ["a", "b", "c"] = some (Node.str "v") :=
  ⟨rfl, rfl,
   (c6_set_value_overwrites.1 Node.str (Node.table []) ["a", "b", "c"] "v" "c"
      (Node.table [("a", Node.table [("b", Node.table [])])]) [] rfl rfl).2⟩

end Tomledit
